import Mathlib

/-!
Verification of the markdown-editor persistence and synchronization layer.

The definitions below are a shallow embedding of the TypeScript sources
(`src/document.ts`, `src/main.ts`, `src/ui.ts`, `src/utils.ts`, `src/db.ts`):

* IndexedDB object stores are modelled as association lists keyed by the
  primary key (`id`); the auto-increment key generator is the `nextId` field.
* `Date` timestamps are naturals (milliseconds); every operation that calls
  `new Date()` in the source takes the corresponding instant as an explicit
  `now` parameter.
* `async` functions that can reject take an explicit success flag where a
  claim depends on the failure path; an IndexedDB transaction that fails
  leaves the store unchanged.
* TypeScript truthiness is made explicit: a possibly-`undefined` field is an
  `Option`, `!name` on a string is `name = ""`, `!id` on a number is `id = 0`.
-/

/-- The `Document` record of `src/document.ts` (`Note` in `src/note.ts` is the
same shape).  `id` is optional: it is absent until the first persist.
`lastOpened` is optional because legacy records may lack the field
(`doc.lastOpened || new Date()` in `saveDocument`). -/
structure Document where
  id : Option Nat
  name : String
  content : String
  createdAt : Nat
  updatedAt : Nat
  lastOpened : Option Nat
deriving DecidableEq

/-- An IndexedDB object store: records listed with their primary key.
Key order of the underlying B-tree is irrelevant here because every listing
the code performs goes through a secondary index or a maximum selection. -/
abbrev ObjectStore := List (Nat × Document)

/-- The database handle: the `documents` object store plus the state of the
auto-increment key generator (next key to hand out, starting at 1). -/
structure DB where
  store : ObjectStore
  nextId : Nat
deriving DecidableEq

/-- IndexedDB `store.get(key)`: the record at the key, if present. -/
def storeGet (s : ObjectStore) (i : Nat) : Option Document :=
  (s.find? (fun e => e.1 = i)).map (fun e => e.2)

/-- IndexedDB `store.put(value)` with an explicit key: replaces the record at
the key if present, otherwise inserts it. -/
def storePut (s : ObjectStore) (i : Nat) (d : Document) : ObjectStore :=
  match s with
  | [] => [(i, d)]
  | e :: es => if e.1 = i then (i, d) :: es else e :: storePut es i d

/-- IndexedDB `store.delete(key)`: removes the record at the key; succeeds as
a no-op when the key is absent. -/
def storeDelete (s : ObjectStore) (i : Nat) : ObjectStore :=
  s.filter (fun e => e.1 ≠ i)

/-- `saveDocument(doc)` of `src/document.ts` / the module in `src/ui.ts`:
`store.put({...doc, updatedAt: new Date(), lastOpened: doc.lastOpened || new Date()})`.
Always restamps `updatedAt`; seeds `lastOpened` when unset.  When `doc.id` is
unset the auto-increment generator assigns the key (and injects it into the
stored record, as IndexedDB does for an in-line key with auto-increment);
when the key is explicit the generator is bumped past it.  Returns the new
database and `request.result`, the key. -/
def saveDocument (db : DB) (doc : Document) (now : Nat) : DB × Nat :=
  let stamped : Document :=
    { doc with updatedAt := now, lastOpened := some (doc.lastOpened.getD now) }
  match doc.id with
  | some i =>
      (⟨storePut db.store i { stamped with id := some i },
        max db.nextId (i + 1)⟩, i)
  | none =>
      let i := db.nextId
      (⟨storePut db.store i { stamped with id := some i }, i + 1⟩, i)

/-- `loadDocument(id)` of `src/document.ts` / `src/ui.ts`: `store.get(id)`;
when the record exists, mutates its `lastOpened` to now, persists that via
`saveDocument`, and resolves with the mutated in-memory object (whose
`updatedAt` is the old one — `saveDocument` spreads into a fresh object, so
only the stored copy gets the fresh `updatedAt`).  Resolves `null` when the
record is absent. -/
def loadDocument (db : DB) (i : Nat) (now : Nat) : DB × Option Document :=
  match storeGet db.store i with
  | none => (db, none)
  | some d =>
      let touched := { d with lastOpened := some now }
      ((saveDocument db touched now).1, some touched)

/-- `deleteDocument(id)` of `src/document.ts`: `store.delete(id)`. -/
def deleteDocument (db : DB) (i : Nat) : DB :=
  { db with store := storeDelete db.store i }

/-- One step of the fold that realises the `lastOpened` index cursor opened
with direction `prev`: keep the entry whose `(lastOpened, primaryKey)` pair
is lexicographically greatest.  Records whose `lastOpened` is absent are not
in the index (IndexedDB skips records where the index key path is
undefined). -/
def betterLastOpened (best : Option (Nat × Nat × Document)) (e : Nat × Document) :
    Option (Nat × Nat × Document) :=
  match e.2.lastOpened with
  | none => best
  | some t =>
      match best with
      | none => some (t, e.1, e.2)
      | some (t', k', d') =>
          if t' < t ∨ (t' = t ∧ k' < e.1) then some (t, e.1, e.2)
          else some (t', k', d')

/-- `getLastOpenedDocument(db)` of `src/document.ts`: opens a cursor on the
`lastOpened` index with direction `'prev'` and resolves with the first value
(the record with the greatest `lastOpened`, ties broken towards the greater
primary key), or `null` when the index is empty. -/
def getLastOpenedDocument (db : DB) : Option Document :=
  (db.store.foldl betterLastOpened none).map (fun x => x.2.2)

/-- The descending `(updatedAt, primaryKey)` traversal order of the
`updatedAt` index cursor opened with direction `'prev'`. -/
def byUpdatedDesc (a b : Nat × Document) : Prop :=
  b.2.updatedAt < a.2.updatedAt ∨ (b.2.updatedAt = a.2.updatedAt ∧ b.1 ≤ a.1)

instance (a b : Nat × Document) : Decidable (byUpdatedDesc a b) :=
  inferInstanceAs (Decidable
    (b.2.updatedAt < a.2.updatedAt ∨ (b.2.updatedAt = a.2.updatedAt ∧ b.1 ≤ a.1)))

instance : IsTotal (Nat × Document) byUpdatedDesc := by
  constructor; intro a b
  unfold byUpdatedDesc; omega

instance : IsTrans (Nat × Document) byUpdatedDesc := by
  constructor; intro a b c
  unfold byUpdatedDesc; omega

/-- `listDocuments()` of `src/document.ts` / `src/ui.ts`: walks the
`updatedAt` index with a `'prev'` cursor, i.e. yields all records sorted by
`(updatedAt, primaryKey)` descending. -/
def listDocuments (db : DB) : List Document :=
  (db.store.insertionSort byUpdatedDesc).map (fun e => e.2)

/-- `getLastOpenedDocument()` of `src/ui.ts` (the near-duplicate variant):
`docs.find(doc => doc.lastOpened) || docs[0] || null` over the
`updatedAt`-descending listing — the first listed record carrying a
`lastOpened`, else the first listed record, else `null`. -/
def getLastOpenedDocument_ui (db : DB) : Option Document :=
  let docs := listDocuments db
  match docs.find? (fun d => d.lastOpened.isSome) with
  | some d => some d
  | none => docs.head?

/-- JavaScript's `String.prototype.trim()`: strip leading and trailing
whitespace.  (Defined on the character list so that it computes by
structural recursion.) -/
def trimString (s : String) : String :=
  ⟨((s.data.dropWhile Char.isWhitespace).reverse.dropWhile
      Char.isWhitespace).reverse⟩

/-- The candidate names `` `Document ${counter}` `` probed by
`generateNextDocumentName` in `src/main.ts`. -/
def candidateName (n : Nat) : String :=
  "Document " ++ Nat.repr n

/-- The `while (existingNames.includes(candidate)) { counter++; ... }` loop of
`generateNextDocumentName`, expressed with explicit fuel.  The source loop
runs unboundedly; `names.length + 1` fuel provably suffices (see
`firstFreeCounter_spec`), so the embedding with that fuel computes exactly
what the loop computes. -/
def firstFreeCounter (names : List String) : Nat → Nat → Nat
  | counter, 0 => counter
  | counter, fuel + 1 =>
      if candidateName counter ∈ names then firstFreeCounter names (counter + 1) fuel
      else counter

/-- `generateNextDocumentName()` of `src/main.ts`.  `names` is the listing
enumerated first, `refreshedNames` the immediate re-check listing (they can
differ only under a race), `promptResult` the reply to the disambiguation
prompt (`none` = cancelled), `nowTs` the value of `Date.now()`. -/
def generateNextDocumentName (names refreshedNames : List String)
    (promptResult : Option String) (nowTs : Nat) : String :=
  let counter := firstFreeCounter names 1 (names.length + 1)
  let candidate := candidateName counter
  if candidate ∈ refreshedNames then
    match promptResult with
    | some newName =>
        if newName ≠ "" ∧ trimString newName ≠ "" then trimString newName
        else "Document " ++ Nat.repr nowTs
    | none => "Document " ++ Nat.repr nowTs
  else candidate

/-- Outcome of a `renameDocument` call, read off the branch taken by the
source: the early `return` on a missing record, the silent skip of the
`if (newName && ...)` guard, the `alert` + `return` on a name collision, and
the successful `saveDocument`. -/
inductive RenameOutcome where
  | notFound
  | noop
  | conflict
  | renamed
deriving DecidableEq

/-- `renameDocument(id)` of `src/main.ts`: loads the record (which persists a
recency touch), prompts for a name (`promptResult`, `none` = cancelled), and
when the reply is truthy, non-blank after trimming, and differs (untrimmed)
from the current name, checks the current listing for another record bearing
the trimmed name; on collision it alerts and returns, otherwise it saves the
record under the trimmed name. -/
def renameDocument (db : DB) (i : Nat) (promptResult : Option String)
    (now : Nat) : DB × RenameOutcome :=
  match loadDocument db i now with
  | (db1, none) => (db1, .notFound)
  | (db1, some doc) =>
      match promptResult with
      | none => (db1, .noop)
      | some newName =>
          if newName ≠ "" ∧ trimString newName ≠ "" ∧ newName ≠ doc.name then
            let trimmedName := trimString newName
            let docs := listDocuments db1
            if docs.any (fun d => d.name = trimmedName ∧ d.id ≠ some i) then
              (db1, .conflict)
            else
              ((saveDocument db1 { doc with name := trimmedName } now).1, .renamed)
          else (db1, .noop)

/-- The trailing-edge debounce of `src/utils.ts` applied to a time-ordered
list of calls `(t, snapshot)`: every call clears the pending timer and
schedules a fire at `t + delay`; a scheduled fire happens exactly when the
next call does not arrive before its deadline.  The returned list holds each
fire paired with the snapshot current at that moment (the snapshot of the
call that scheduled it, since the next call comes after the fire). -/
def debounceRun (delay : Nat) : List (Nat × String) → List (Nat × String)
  | [] => []
  | [(t, c)] => [(t + delay, c)]
  | (t, c) :: (t2, c2) :: rest =>
      if t2 < t + delay then debounceRun delay ((t2, c2) :: rest)
      else (t + delay, c) :: debounceRun delay ((t2, c2) :: rest)

/-- The per-document save state of `src/main.ts`:
`Map<number, 'idle' | 'saving' | 'saved' | 'unsaved'>` (the `'unsaved'`
member of the union is declared but never stored). -/
inductive SaveSt where
  | idle
  | saving
  | saved
  | unsaved
deriving DecidableEq

/-- `documentSaveStates.set(id, st)`. -/
def setSaveState (m : List (Nat × SaveSt)) (i : Nat) (st : SaveSt) :
    List (Nat × SaveSt) :=
  match m with
  | [] => [(i, st)]
  | e :: es => if e.1 = i then (i, st) :: es else e :: setSaveState es i st

/-- `documentSaveStates.get(id) || 'idle'` (the read in `updateDocumentList`). -/
def getSaveState (m : List (Nat × SaveSt)) (i : Nat) : SaveSt :=
  ((m.find? (fun e => e.1 = i)).map (fun e => e.2)).getD .idle

/-- The module-level mutable session of `src/main.ts`: the database handle,
`currentDocument`, the editor's current markdown (what `editor.getMarkdown()`
returns), `hasUnsavedChanges`, and `documentSaveStates`. -/
structure State where
  db : DB
  current : Option Document
  editorContent : String
  dirty : Bool
  saveStates : List (Nat × SaveSt)
deriving DecidableEq

/-- The guard at the head of `autoSave`:
`if (!currentDocument || !currentDocument.id || !hasUnsavedChanges) return;`
(`!id` is TypeScript falsiness, so an id of `0` also bails).  Yields the
`docId` the function proceeds with. -/
def autoSaveGuard (s : State) : Option Nat :=
  match s.current with
  | none => none
  | some c =>
      match c.id with
      | none => none
      | some i => if i ≠ 0 ∧ s.dirty then some i else none

/-- The synchronous prefix of `autoSave` up to the `await`: set the save
state of `docId` to `'saving'`, copy `editor.getMarkdown()` into
`currentDocument.content` and stamp `currentDocument.updatedAt`. -/
def autoSaveBegin (s : State) (now : Nat) : State :=
  match autoSaveGuard s with
  | none => s
  | some i =>
      { s with
          current := s.current.map
            (fun c => { c with content := s.editorContent, updatedAt := now }),
          saveStates := setSaveState s.saveStates i .saving }

/-- The continuation of `autoSave` after `await saveDocument(currentDocument)`
settles: on success mark `'saved'`, clear the dirty flag, and schedule the
revert timer `setTimeout(..., 2000)` (returned as the absolute fire time); on
failure (`catch`) mark `'idle'` directly and leave the store and the dirty
flag alone.  `c` is the argument `saveDocument` was called with and `i` the
captured `docId`. -/
def autoSaveCommit (s : State) (c : Document) (i : Nat) (ok : Bool)
    (now : Nat) : State × Option Nat :=
  if ok then
    ({ s with
        db := (saveDocument s.db c now).1,
        dirty := false,
        saveStates := setSaveState s.saveStates i .saved },
      some (now + 2000))
  else
    ({ s with saveStates := setSaveState s.saveStates i .idle }, none)

/-- A whole `autoSave` run with no interleaved events: the begin phase at
`now`, then the persist settling (`ok`) at `now2`. -/
def autoSave (s : State) (ok : Bool) (now now2 : Nat) : State :=
  match autoSaveGuard s with
  | none => s
  | some i =>
      let s1 := autoSaveBegin s now
      match s1.current with
      | some c => (autoSaveCommit s1 c i ok now2).1
      | none => s1

/-- The body of the 2-second revert timer scheduled by a successful
`autoSave`: `documentSaveStates.set(docId, 'idle'); updateDocumentList();`. -/
def savedRevert (s : State) (i : Nat) : State :=
  { s with saveStates := setSaveState s.saveStates i .idle }

/-- `saveCurrentDocument()` of `src/main.ts`: prompt for a name
(`promptResult`; `if (!name) return` catches both cancel and the empty
reply), overwrite `currentDocument.name` and `.updatedAt`, persist, store the
returned id back into `currentDocument`, and clear the dirty flag.  Note that
it does **not** copy the editor's pending content into the record first. -/
def saveCurrentDocument (s : State) (promptResult : Option String)
    (now : Nat) : State :=
  match s.current with
  | none => s
  | some c =>
      match promptResult with
      | none => s
      | some name =>
          if name = "" then s
          else
            let c1 := { c with name := name, updatedAt := now }
            let r := saveDocument s.db c1 now
            { s with
                db := r.1,
                current := some { c1 with id := some r.2 },
                dirty := false }

/-- `loadDocumentById(id)` of `src/main.ts`.  `modalChoice` is the reply of
`showUnsavedModal` (`none` = Cancel, `some true` = Save, `some false` =
Discard), consulted only when the dirty flag is set; `savePrompt` is the name
prompt `saveCurrentDocument` would show; `now` stamps the load and `nowSave`
the optional save.  On a successful load the loaded record becomes current,
its content replaces the editor content, the dirty flag clears and the save
state of `id` is set to `'idle'`. -/
def loadDocumentById (s : State) (i : Nat) (modalChoice : Option Bool)
    (savePrompt : Option String) (now nowSave : Nat) : State :=
  let proceed : State → State := fun s1 =>
    match loadDocument s1.db i now with
    | (db1, some d) =>
        { s1 with
            db := db1,
            current := some d,
            editorContent := d.content,
            dirty := false,
            saveStates := setSaveState s1.saveStates i .idle }
    | (db1, none) => { s1 with db := db1 }
  if s.dirty then
    match modalChoice with
    | none => s
    | some true => proceed (saveCurrentDocument s savePrompt nowSave)
    | some false => proceed s
  else proceed s

/-- The `newDocBtn` click handler of `src/main.ts`: resolve a dirty session
through the modal exactly as `loadDocumentById` does, generate the next
default name, build a fresh record stamped `now`, persist it immediately to
obtain its id, mark that id `'idle'`, clear the editor and the dirty flag. -/
def newDocClick (s : State) (modalChoice : Option Bool)
    (savePrompt racePrompt : Option String) (now : Nat) : State :=
  let proceed : State → State := fun s1 =>
    let names := (listDocuments s1.db).map (fun d => d.name)
    let docName := generateNextDocumentName names names racePrompt now
    let fresh : Document :=
      { id := none, name := docName, content := "", createdAt := now,
        updatedAt := now, lastOpened := some now }
    let r := saveDocument s1.db fresh now
    { s1 with
        db := r.1,
        current := some { fresh with id := some r.2 },
        editorContent := "",
        dirty := false,
        saveStates := setSaveState s1.saveStates r.2 .idle }
  if s.dirty then
    match modalChoice with
    | none => s
    | some true => proceed (saveCurrentDocument s savePrompt now)
    | some false => proceed s
  else proceed s

/-- `deleteDocumentHandler(id)` of `src/main.ts`: delete the record (`ok`
distinguishes the `try` and `catch` arms; a rejected delete changes
nothing), and when the deleted id is the current document's, null the current
document, clear the editor and reset the dirty flag. -/
def deleteDocumentHandler (s : State) (i : Nat) (ok : Bool) : State :=
  if ok then
    let s1 := { s with db := deleteDocument s.db i }
    if (s1.current.bind (fun c => c.id)) = some i then
      { s1 with current := none, editorContent := "", dirty := false }
    else s1
  else s

/-- `copyDocumentContent(id)` of `src/main.ts` as far as the store is
concerned: a `loadDocument` (with its recency touch). -/
def copyDocumentContent (s : State) (i : Nat) (now : Nat) : State :=
  { s with db := (loadDocument s.db i now).1 }

/-- The `editor.on('update')` handler plus the editor's own content change:
the session sees the new markdown and `hasUnsavedChanges = true`. -/
def editorUpdate (s : State) (content : String) : State :=
  { s with editorContent := content, dirty := true }

/-- Every entry point of `src/main.ts` that can touch the session or the
store, with the external inputs (user replies, timestamps, driver success)
as constructor arguments. -/
inductive Ev where
  | edit (content : String)
  | autosave (ok : Bool) (now now2 : Nat)
  | revert (i : Nat)
  | newdoc (modalChoice : Option Bool) (savePrompt racePrompt : Option String) (now : Nat)
  | select (i : Nat) (modalChoice : Option Bool) (savePrompt : Option String) (now nowSave : Nat)
  | manualSave (promptResult : Option String) (now : Nat)
  | rename (i : Nat) (promptResult : Option String) (now : Nat)
  | copy (i : Nat) (now : Nat)
  | del (i : Nat) (ok : Bool)

/-- The session-level step function: dispatch an event to the corresponding
handler above. -/
def step (s : State) : Ev → State
  | .edit content => editorUpdate s content
  | .autosave ok now now2 => autoSave s ok now now2
  | .revert i => savedRevert s i
  | .newdoc modalChoice savePrompt racePrompt now =>
      newDocClick s modalChoice savePrompt racePrompt now
  | .select i modalChoice savePrompt now nowSave =>
      loadDocumentById s i modalChoice savePrompt now nowSave
  | .manualSave promptResult now => saveCurrentDocument s promptResult now
  | .rename i promptResult now => (renameDocument s.db i promptResult now).1
      |> fun db1 => { s with db := db1 }
  | .copy i now => copyDocumentContent s i now
  | .del i ok => deleteDocumentHandler s i ok

/-- The key a `saveDocument` call writes to: the document's own id, or the
generator's next key. -/
def saveKey (db : DB) (doc : Document) : Nat :=
  doc.id.getD db.nextId

/-- The record a `saveDocument` call stores. -/
def stampRecord (db : DB) (doc : Document) (now : Nat) : Document :=
  { doc with
      id := some (saveKey db doc),
      updatedAt := now,
      lastOpened := some (doc.lastOpened.getD now) }

/-- Well-formedness of the IndexedDB store as the schema guarantees it
(`keyPath: 'id'`, `autoIncrement: true` in `initDB`): each stored record's
`id` field is its primary key, and every key is below the generator. -/
def storeWF (db : DB) : Prop :=
  ∀ e ∈ db.store, e.2.id = some e.1 ∧ e.1 < db.nextId

/-- The fields the spec calls the stable identity and content of a record:
everything except the recency stamps `updatedAt` and `lastOpened`. -/
def persistentFields (d : Document) : Option Nat × String × String × Nat :=
  (d.id, d.name, d.content, d.createdAt)

/-- A one-document store: id 1, `updatedAt` 5, `lastOpened` 3. -/
def c1doc : Document :=
  { id := some 1, name := "A", content := "hello", createdAt := 1,
    updatedAt := 5, lastOpened := some 3 }

def c1db : DB := { store := [(1, c1doc)], nextId := 2 }

/-- The state for the C3 witness: document 1 is current and dirty, with a
pending edit in the editor. -/
def c3doc : Document :=
  { id := some 1, name := "Doc", content := "old", createdAt := 0,
    updatedAt := 4, lastOpened := some 4 }

def c3state : State :=
  { db := { store := [(1, c3doc)], nextId := 2 },
    current := some c3doc, editorContent := "new text", dirty := true,
    saveStates := [] }

def c2docA : Document :=
  { id := some 1, name := "A", content := "old", createdAt := 0,
    updatedAt := 1, lastOpened := some 1 }

def c2docB : Document :=
  { id := some 2, name := "B", content := "b text", createdAt := 0,
    updatedAt := 2, lastOpened := some 2 }

/-- Document A is current and dirty: the editor holds a pending edit that has
not yet been autosaved into A's record. -/
def c2state : State :=
  { db := { store := [(1, c2docA), (2, c2docB)], nextId := 3 },
    current := some c2docA, editorContent := "PENDING EDIT", dirty := true,
    saveStates := [] }

def c10doc : Document :=
  { id := some 1, name := "N", content := "body", createdAt := 0,
    updatedAt := 3, lastOpened := some 3 }

def c10state : State :=
  { db := { store := [(1, c10doc)], nextId := 2 },
    current := some c10doc, editorContent := "body", dirty := true,
    saveStates := [] }

instance (db : DB) : Decidable (storeWF db) :=
  inferInstanceAs (Decidable (∀ e ∈ db.store, e.2.id = some e.1 ∧ e.1 < db.nextId))

def c6doc : Document :=
  { id := some 1, name := "Foo", content := "c", createdAt := 0,
    updatedAt := 5, lastOpened := some 5 }

def c6db : DB := { store := [(1, c6doc)], nextId := 2 }

def c5docA : Document :=
  { id := some 1, name := "Alpha", content := "a", createdAt := 0,
    updatedAt := 5, lastOpened := some 3 }

def c5docB : Document :=
  { id := some 2, name := "Beta", content := "b", createdAt := 0,
    updatedAt := 6, lastOpened := some 4 }

def c5db : DB := { store := [(1, c5docA), (2, c5docB)], nextId := 3 }

def c7docA : Document :=
  { id := some 1, name := "A", content := "a", createdAt := 0,
    updatedAt := 1, lastOpened := some 100 }

def c7docB : Document :=
  { id := some 2, name := "B", content := "b", createdAt := 0,
    updatedAt := 200, lastOpened := some 50 }

def c7db : DB := { store := [(1, c7docA), (2, c7docB)], nextId := 3 }

/-- The decimal value of a digit character (inverse of `Nat.digitChar` on
`'0'`–`'9'`). -/
def charToDigit (c : Char) : Nat := c.toNat - 48

/-- The number denoted by a list of decimal digit characters. -/
def digitsVal : List Char → Nat
  | [] => 0
  | c :: cs => charToDigit c * 10 ^ cs.length + digitsVal cs

/-- The session ties the in-memory current document to its stored record: the
stored record under the current document's id has the same `createdAt`.
Every mutation of `currentDocument` in `src/main.ts` either copies a record
loaded from the store, stores the current record, or builds a fresh record
and immediately persists it, so this holds throughout a session. -/
def currentConsistent (s : State) : Prop :=
  ∀ c i d, s.current = some c → c.id = some i →
    storeGet s.db.store i = some d → d.createdAt = c.createdAt

/-- The session invariant: a well-formed store plus the current-document
consistency. -/
def SessionInv (s : State) : Prop := storeWF s.db ∧ currentConsistent s

/-- createdAt-frame and key-presence preservation between two database
states. -/
def dbFp (db1 db2 : DB) : Prop :=
  (∀ j d d2, storeGet db1.store j = some d → storeGet db2.store j = some d2 →
    d2.createdAt = d.createdAt) ∧
  (∀ j d, storeGet db1.store j = some d → ∃ d2, storeGet db2.store j = some d2)

/-- The `proceed` closure of `loadDocumentById` as a standalone function
(definitionally equal to the `let` in the handler). -/
def selectProceed (i now : Nat) (s1 : State) : State :=
  match loadDocument s1.db i now with
  | (db1, some d) =>
      { s1 with
          db := db1,
          current := some d,
          editorContent := d.content,
          dirty := false,
          saveStates := setSaveState s1.saveStates i SaveSt.idle }
  | (db1, none) => { s1 with db := db1 }

/-- The post-modal body of the new-document click handler as a standalone
function (definitionally equal to the `let` in the handler). -/
def newDocProceed (racePrompt : Option String) (now : Nat) (s1 : State) : State :=
  let names := (listDocuments s1.db).map (fun d => d.name)
  let docName := generateNextDocumentName names names racePrompt now
  let fresh : Document :=
    { id := none, name := docName, content := "", createdAt := now,
      updatedAt := now, lastOpened := some now }
  let r := saveDocument s1.db fresh now
  { s1 with
      db := r.1,
      current := some { fresh with id := some r.2 },
      editorContent := "",
      dirty := false,
      saveStates := setSaveState s1.saveStates r.2 SaveSt.idle }

def c9doc : Document :=
  { id := some 1, name := "Doc", content := "x", createdAt := 7,
    updatedAt := 9, lastOpened := some 9 }

def c9state : State :=
  { db := { store := [(1, c9doc)], nextId := 2 },
    current := some c9doc, editorContent := "x", dirty := false,
    saveStates := [] }

theorem storeGet_cons (a : Nat) (b : Document) (es : ObjectStore) (j : Nat) :
    storeGet ((a, b) :: es) j = if a = j then some b else storeGet es j := by
  by_cases h : a = j <;> simp [storeGet, List.find?_cons, h]

theorem storeGet_put_self (s : ObjectStore) (i : Nat) (d : Document) :
    storeGet (storePut s i d) i = some d := by
  induction s with
  | nil => simp [storePut, storeGet_cons, storeGet]
  | cons e es ih =>
    obtain ⟨a, b⟩ := e
    by_cases h : a = i
    · simp [storePut, h, storeGet_cons]
    · simp [storePut, h, storeGet_cons, ih]

theorem storeGet_put_ne (s : ObjectStore) (i j : Nat) (d : Document)
    (h : j ≠ i) : storeGet (storePut s i d) j = storeGet s j := by
  have hij : i ≠ j := fun hc => h hc.symm
  induction s with
  | nil => simp [storePut, storeGet_cons, storeGet, hij]
  | cons e es ih =>
    obtain ⟨a, b⟩ := e
    by_cases ha : a = i
    · subst ha
      simp [storePut, storeGet_cons, hij]
    · simp [storePut, ha, storeGet_cons, ih]

theorem storePut_mem (s : ObjectStore) (i : Nat) (d : Document) :
    ∀ e ∈ storePut s i d, e = (i, d) ∨ e ∈ s := by
  induction s with
  | nil => simp [storePut]
  | cons f es ih =>
    by_cases h : f.1 = i
    · intro e he
      simp [storePut, h] at he
      rcases he with he | he
      · exact Or.inl he
      · exact Or.inr (List.mem_cons_of_mem f he)
    · intro e he
      simp [storePut, h] at he
      rcases he with he | he
      · exact Or.inr (by simp [he])
      · rcases ih e he with h1 | h1
        · exact Or.inl h1
        · exact Or.inr (List.mem_cons_of_mem f h1)

theorem storeGet_mem {s : ObjectStore} {i : Nat} {d : Document}
    (h : storeGet s i = some d) : (i, d) ∈ s := by
  unfold storeGet at h
  rcases Option.map_eq_some'.mp h with ⟨e, hfind, hed⟩
  have hmem := List.mem_of_find?_eq_some hfind
  have hkey := List.find?_some hfind
  simp at hkey
  obtain ⟨i', d'⟩ := e
  simp at hkey hed
  subst hkey; subst hed
  exact hmem

theorem storeGet_delete (s : ObjectStore) (i j : Nat) :
    storeGet (storeDelete s i) j = if j = i then none else storeGet s j := by
  induction s with
  | nil => by_cases hj : j = i <;> simp [storeDelete, storeGet, hj]
  | cons e es ih =>
    obtain ⟨a, b⟩ := e
    by_cases ha : a = i
    · have h1 : storeDelete ((a, b) :: es) i = storeDelete es i := by
        simp [storeDelete, List.filter_cons, ha]
      rw [h1, ih]
      by_cases hj : j = i
      · simp [hj]
      · rw [if_neg hj, if_neg hj, storeGet_cons,
          if_neg (fun hc : a = j => hj (hc ▸ ha))]
    · have h1 : storeDelete ((a, b) :: es) i = (a, b) :: storeDelete es i := by
        simp [storeDelete, List.filter_cons, ha]
      rw [h1, storeGet_cons, storeGet_cons]
      by_cases haj : a = j
      · rw [if_pos haj, if_neg (fun hc : j = i => ha (haj.trans hc)), if_pos haj]
      · rw [if_neg haj, ih]
        by_cases hj : j = i <;> simp [hj, haj]

theorem saveDocument_key (db : DB) (doc : Document) (now : Nat) :
    (saveDocument db doc now).2 = saveKey db doc := by
  cases hid : doc.id <;> simp [saveDocument, saveKey, hid]

theorem saveDocument_get_self (db : DB) (doc : Document) (now : Nat) :
    storeGet (saveDocument db doc now).1.store (saveKey db doc) =
      some (stampRecord db doc now) := by
  cases hid : doc.id <;> simp [saveDocument, saveKey, stampRecord, hid, storeGet_put_self]

theorem saveDocument_get_ne (db : DB) (doc : Document) (now : Nat) (j : Nat)
    (h : j ≠ saveKey db doc) :
    storeGet (saveDocument db doc now).1.store j = storeGet db.store j := by
  cases hid : doc.id <;> simp [saveKey, hid] at h <;>
    simp [saveDocument, hid, storeGet_put_ne _ _ _ _ h]

/-- Where a record in the post-`saveDocument` store comes from: it is the
freshly stamped record at the written key, or an untouched pre-existing
record at another key. -/
theorem saveDocument_get_cases (db : DB) (doc : Document) (now : Nat)
    {j : Nat} {d' : Document}
    (h : storeGet (saveDocument db doc now).1.store j = some d') :
    (j = saveKey db doc ∧ d' = stampRecord db doc now) ∨
    (j ≠ saveKey db doc ∧ storeGet db.store j = some d') := by
  by_cases hj : j = saveKey db doc
  · subst hj
    rw [saveDocument_get_self] at h
    exact Or.inl ⟨rfl, (Option.some_inj.mp h).symm⟩
  · exact Or.inr ⟨hj, by rw [saveDocument_get_ne _ _ _ _ hj] at h; exact h⟩

theorem saveDocument_nextId_mono (db : DB) (doc : Document) (now : Nat) :
    db.nextId ≤ (saveDocument db doc now).1.nextId := by
  unfold saveDocument
  cases doc.id <;> simp

theorem saveDocument_key_lt (db : DB) (doc : Document) (now : Nat) :
    saveKey db doc < (saveDocument db doc now).1.nextId := by
  unfold saveDocument saveKey
  cases doc.id <;> simp

theorem storeWF_get_id {db : DB} {i : Nat} {d : Document} (wf : storeWF db)
    (h : storeGet db.store i = some d) : d.id = some i :=
  (wf _ (storeGet_mem h)).1

theorem saveDocument_store_eq (db : DB) (doc : Document) (now : Nat) :
    (saveDocument db doc now).1.store =
      storePut db.store (saveKey db doc) (stampRecord db doc now) := by
  cases hid : doc.id <;> simp [saveDocument, saveKey, stampRecord, hid]

theorem storeWF_save {db : DB} (doc : Document) (now : Nat)
    (wf : storeWF db) : storeWF (saveDocument db doc now).1 := by
  intro e he
  rw [saveDocument_store_eq] at he
  rcases storePut_mem _ _ _ e he with h | h
  · subst h
    refine ⟨rfl, ?_⟩
    exact saveDocument_key_lt db doc now
  · rcases wf e h with ⟨h1, h2⟩
    exact ⟨h1, lt_of_lt_of_le h2 (saveDocument_nextId_mono db doc now)⟩

theorem loadDocument_eq_some (db : DB) (i : Nat) (now : Nat) {d : Document}
    (h : storeGet db.store i = some d) :
    loadDocument db i now =
      ((saveDocument db { d with lastOpened := some now } now).1,
        some { d with lastOpened := some now }) := by
  simp [loadDocument, h]

theorem loadDocument_touch_key (db : DB) (i : Nat) (now : Nat) {d : Document}
    (wf : storeWF db) (h : storeGet db.store i = some d) :
    saveKey db { d with lastOpened := some now } = i := by
  have hid := storeWF_get_id wf h
  simp [saveKey, hid]

theorem storeWF_load {db : DB} (i : Nat) (now : Nat)
    (wf : storeWF db) : storeWF (loadDocument db i now).1 := by
  unfold loadDocument
  cases h : storeGet db.store i
  · simpa using wf
  · simpa using storeWF_save _ _ wf

theorem storeWF_delete {db : DB} (i : Nat) (wf : storeWF db) :
    storeWF (deleteDocument db i) := by
  intro e he
  exact wf e (List.mem_of_mem_filter he)

/-- A `get`-triggered recency touch rewrites only `updatedAt` and
`lastOpened`: the identity, name, content and creation stamp of every stored
record survive a `loadDocument` unchanged. -/
theorem loadDocument_persistentFields {db : DB} (i now j : Nat)
    (wf : storeWF db) :
    (storeGet (loadDocument db i now).1.store j).map persistentFields =
      (storeGet db.store j).map persistentFields := by
  cases h : storeGet db.store i with
  | none => rw [show (loadDocument db i now).1 = db from by simp [loadDocument, h]]
  | some d =>
    have hid := storeWF_get_id wf h
    have hkey := loadDocument_touch_key db i now wf h
    rw [show (loadDocument db i now).1 =
        (saveDocument db { d with lastOpened := some now } now).1 from by
      rw [loadDocument_eq_some db i now h]]
    by_cases hj : j = i
    · subst hj
      rw [← hkey, saveDocument_get_self, hkey, h]
      simp only [Option.map_some', stampRecord, persistentFields]
      rw [hkey, hid]
    · rw [saveDocument_get_ne _ _ _ _ (by rw [hkey]; exact hj)]

/-- The load touch leaves every record other than the loaded one completely
unchanged. -/
theorem loadDocument_get_other {db : DB} (i now j : Nat) (wf : storeWF db)
    (hj : j ≠ i) :
    storeGet (loadDocument db i now).1.store j = storeGet db.store j := by
  cases h : storeGet db.store i with
  | none => rw [show (loadDocument db i now).1 = db from by simp [loadDocument, h]]
  | some d =>
    have hkey := loadDocument_touch_key db i now wf h
    rw [show (loadDocument db i now).1 =
        (saveDocument db { d with lastOpened := some now } now).1 from by
      rw [loadDocument_eq_some db i now h]]
    exact saveDocument_get_ne db _ now j (by rw [hkey]; exact hj)

theorem getSaveState_cons (a : Nat) (b : SaveSt) (es : List (Nat × SaveSt))
    (i : Nat) :
    getSaveState ((a, b) :: es) i = if a = i then b else getSaveState es i := by
  by_cases h : a = i <;> simp [getSaveState, List.find?_cons, h]

theorem getSaveState_set_self (m : List (Nat × SaveSt)) (i : Nat) (st : SaveSt) :
    getSaveState (setSaveState m i st) i = st := by
  induction m with
  | nil => simp [setSaveState, getSaveState_cons]
  | cons e es ih =>
    obtain ⟨a, b⟩ := e
    by_cases h : a = i
    · simp [setSaveState, h, getSaveState_cons]
    · simp [setSaveState, h, getSaveState_cons, ih]

/-- C1: the claim asserts that `loadDocument` leaves `updatedAt` exactly as it
was.  Evaluating the code at the failing input: the store holds document 1
with `updatedAt` 5; a `loadDocument(1)` at time 10 persists the `lastOpened`
touch through `saveDocument`, whose `put` spreads `updatedAt: new Date()`, so
the stored `updatedAt` becomes 10 — it is not left as it was. -/
theorem C1_load_restamps_updatedAt :
    (storeGet c1db.store 1).map Document.updatedAt = some 5 ∧
    (storeGet (loadDocument c1db 1 10).1.store 1).map Document.updatedAt = some 10 ∧
    (storeGet (loadDocument c1db 1 10).1.store 1).map Document.lastOpened =
      some (some 10) := by
  decide

/-- C4: for a burst of notifications in which each arrives within the 1000 ms
quiet window of the previous one (the window `main.ts` passes to `debounce`),
the debounced callback fires exactly once, 1000 ms after the last
notification, with the snapshot of the last notification. -/
theorem C4_debounce_collapse (events : List (Nat × String)) (tl : Nat)
    (cl : String)
    (hburst : List.Chain' (fun a b => b.1 < a.1 + 1000) events)
    (hlast : events.getLast? = some (tl, cl)) :
    debounceRun 1000 events = [(tl + 1000, cl)] := by
  induction events with
  | nil => simp at hlast
  | cons a rest ih =>
    cases rest with
    | nil =>
      obtain ⟨t, c⟩ := a
      simp at hlast
      obtain ⟨h1, h2⟩ := hlast
      subst h1; subst h2
      simp [debounceRun]
    | cons b rest2 =>
      obtain ⟨hab, hrest⟩ := List.chain'_cons.mp hburst
      obtain ⟨ta, ca⟩ := a
      obtain ⟨tb, cb⟩ := b
      rw [List.getLast?_cons_cons] at hlast
      have hres := ih hrest hlast
      simpa [debounceRun, hab] using hres

/-- Witness for C4: three notifications at 0, 150 and 200 ms collapse into a
single fire at 1200 ms carrying the last snapshot. -/
theorem C4_debounce_collapse_witness :
    List.Chain' (fun a b : Nat × String => b.1 < a.1 + 1000)
      [(0, "a"), (150, "ab"), (200, "abc")] ∧
    ([(0, "a"), (150, "ab"), (200, "abc")] : List (Nat × String)).getLast? =
      some (200, "abc") ∧
    debounceRun 1000 [(0, "a"), (150, "ab"), (200, "abc")] = [(1200, "abc")] :=
  ⟨by norm_num [List.chain'_cons, List.chain'_singleton], by decide,
    C4_debounce_collapse [(0, "a"), (150, "ab"), (200, "abc")] 200 "abc"
      (by norm_num [List.chain'_cons, List.chain'_singleton]) (by decide)⟩

/-- C3: one `autoSave` run for the current document with id `i`.  While the
persist is in flight (after the synchronous prefix `autoSaveBegin`) the save
state is `'saving'` and nothing has been written (`db` unchanged).  On
success the state becomes `'saved'`, the dirty flag clears, and the revert
timer is scheduled for 2000 ms later; firing it flips the state to `'idle'`
without touching the store.  On failure the run ends as the begin state with
exactly one further save-state write — `'idle'` — and no change to the store
or the dirty flag (Saving to Idle directly, never through Saved). -/
theorem C3_autosave_state_machine (s : State) (c : Document) (i now now2 : Nat)
    (hc : s.current = some c) (hi : c.id = some i) (hz : i ≠ 0)
    (hd : s.dirty = true) :
    (autoSaveBegin s now).db = s.db ∧
    getSaveState (autoSaveBegin s now).saveStates i = SaveSt.saving ∧
    getSaveState (autoSave s true now now2).saveStates i = SaveSt.saved ∧
    (autoSave s true now now2).dirty = false ∧
    (autoSaveCommit (autoSaveBegin s now)
        { c with content := s.editorContent, updatedAt := now } i true now2).2 =
      some (now2 + 2000) ∧
    getSaveState (savedRevert (autoSave s true now now2) i).saveStates i =
      SaveSt.idle ∧
    (savedRevert (autoSave s true now now2) i).db = (autoSave s true now now2).db ∧
    autoSave s false now now2 =
      { autoSaveBegin s now with
          saveStates := setSaveState (autoSaveBegin s now).saveStates i SaveSt.idle } := by
  have hguard : autoSaveGuard s = some i := by
    simp [autoSaveGuard, hc, hi, hz, hd]
  have hbegin : autoSaveBegin s now =
      { s with
          current := some { c with content := s.editorContent, updatedAt := now },
          saveStates := setSaveState s.saveStates i SaveSt.saving } := by
    simp [autoSaveBegin, hguard, hc]
  have hsucc : autoSave s true now now2 =
      (autoSaveCommit (autoSaveBegin s now)
        { c with content := s.editorContent, updatedAt := now } i true now2).1 := by
    simp [autoSave, hguard, hbegin]
  have hfail : autoSave s false now now2 =
      (autoSaveCommit (autoSaveBegin s now)
        { c with content := s.editorContent, updatedAt := now } i false now2).1 := by
    simp [autoSave, hguard, hbegin]
  refine ⟨by rw [hbegin], ?_, ?_, ?_, ?_, ?_, ?_, ?_⟩
  · rw [hbegin]
    exact getSaveState_set_self _ _ _
  · rw [hsucc]
    simp [autoSaveCommit, getSaveState_set_self]
  · rw [hsucc]
    simp [autoSaveCommit]
  · simp [autoSaveCommit]
  · rw [hsucc]
    simp [savedRevert, autoSaveCommit, getSaveState_set_self]
  · simp [savedRevert]
  · rw [hfail]
    simp [autoSaveCommit]

/-- Witness for C3 at a concrete session. -/
theorem C3_autosave_state_machine_witness :
    (c3state.current = some c3doc ∧ c3doc.id = some 1 ∧ (1 : Nat) ≠ 0 ∧
      c3state.dirty = true) ∧
    (getSaveState (autoSaveBegin c3state 20).saveStates 1 = SaveSt.saving ∧
      getSaveState (autoSave c3state true 20 21).saveStates 1 = SaveSt.saved ∧
      (autoSave c3state true 20 21).dirty = false ∧
      getSaveState (savedRevert (autoSave c3state true 20 21) 1).saveStates 1 =
        SaveSt.idle ∧
      getSaveState (autoSave c3state false 20 21).saveStates 1 = SaveSt.idle ∧
      (autoSave c3state false 20 21).db = c3state.db) :=
  ⟨⟨rfl, rfl, by decide, rfl⟩, by
    have h := C3_autosave_state_machine c3state c3doc 1 20 21 rfl rfl
      (by decide) rfl
    refine ⟨h.2.1, h.2.2.1, h.2.2.2.1, h.2.2.2.2.2.1, ?_, ?_⟩ <;> decide⟩

/-- C2: evaluating `loadDocumentById(2)` at the failing input.  The dirty
flag is set, the user answers the modal with Save (`some true`) and then
cancels the name prompt (`none`).  `saveCurrentDocument` returns without
persisting anything — yet the switch proceeds: document B becomes current
while A's record still holds the stale content and the pending edit survives
nowhere in the store.  The switch was neither blocked nor preceded by a
persist, and the user never chose Discard. -/
theorem C2_switch_drops_pending_edit :
    c2state.dirty = true ∧
    c2state.editorContent = "PENDING EDIT" ∧
    (step c2state (Ev.select 2 (some true) none 10 9)).current.bind
      (fun c => c.id) = some 2 ∧
    (storeGet (step c2state (Ev.select 2 (some true) none 10 9)).db.store 1).map
      Document.content = some "old" ∧
    (∀ e ∈ (step c2state (Ev.select 2 (some true) none 10 9)).db.store,
      e.2.content ≠ "PENDING EDIT") := by
  decide

/-- C10: a delete request whose storage delete succeeds clears the session
exactly when the deleted id is the current document's: current becomes
`none`, the editor is cleared, the dirty flag resets.  When the deleted id is
not the current document's (in particular when no document is open), the
current document, the editor content and the dirty flag are all unchanged
(whether or not the delete succeeded). -/
theorem C10_delete_session_frame (s : State) (i : Nat) (ok : Bool) :
    (ok = true → ∀ c, s.current = some c → c.id = some i →
      (deleteDocumentHandler s i ok).current = none ∧
      (deleteDocumentHandler s i ok).editorContent = "" ∧
      (deleteDocumentHandler s i ok).dirty = false) ∧
    (s.current.bind (fun c => c.id) ≠ some i →
      (deleteDocumentHandler s i ok).current = s.current ∧
      (deleteDocumentHandler s i ok).editorContent = s.editorContent ∧
      (deleteDocumentHandler s i ok).dirty = s.dirty) := by
  constructor
  · rintro rfl c hc hi
    simp [deleteDocumentHandler, hc, hi]
  · intro hne
    by_cases hok : ok
    · subst hok
      simp only [deleteDocumentHandler, if_true]
      rw [if_neg (by simpa using hne)]
      exact ⟨rfl, rfl, rfl⟩
    · simp [deleteDocumentHandler, hok]

/-- Witness for C10: deleting the current document (id 1) clears the
session; deleting a different id (2) leaves it alone. -/
theorem C10_delete_session_frame_witness :
    ((deleteDocumentHandler c10state 1 true).current = none ∧
      (deleteDocumentHandler c10state 1 true).editorContent = "" ∧
      (deleteDocumentHandler c10state 1 true).dirty = false) ∧
    ((deleteDocumentHandler c10state 2 true).current = c10state.current ∧
      (deleteDocumentHandler c10state 2 true).editorContent =
        c10state.editorContent ∧
      (deleteDocumentHandler c10state 2 true).dirty = c10state.dirty) :=
  ⟨(C10_delete_session_frame c10state 1 true).1 rfl c10doc rfl rfl,
    (C10_delete_session_frame c10state 2 true).2 (by decide)⟩

theorem mem_listDocuments {db : DB} {k : Nat} {d : Document}
    (h : (k, d) ∈ db.store) : d ∈ listDocuments db :=
  List.mem_map_of_mem _
    ((List.perm_insertionSort byUpdatedDesc db.store).mem_iff.mpr h)

/-- `renameDocument` on a present record, with the load unfolded. -/
theorem renameDocument_some_eq (db : DB) (i : Nat) (newName : String)
    (now : Nat) {d : Document} (hd : storeGet db.store i = some d) :
    renameDocument db i (some newName) now =
      if newName ≠ "" ∧ trimString newName ≠ "" ∧
          newName ≠ ({ d with lastOpened := some now } : Document).name then
        if (listDocuments (loadDocument db i now).1).any
            (fun e => e.name = trimString newName ∧ e.id ≠ some i) then
          ((loadDocument db i now).1, RenameOutcome.conflict)
        else
          ((saveDocument (loadDocument db i now).1
              { d with name := trimString newName, lastOpened := some now }
              now).1,
            RenameOutcome.renamed)
      else ((loadDocument db i now).1, RenameOutcome.noop) := by
  unfold renameDocument
  rw [loadDocument_eq_some db i now hd]

/-- C6, counterexample to the claim as stated: the proposed name `" Foo "`
trims to the current name `"Foo"`, so the claim demands a NoOp with the
stored record unchanged — but the code compares the *untrimmed* reply
against the current name, passes the guard, finds no conflict, and performs
a genuine `saveDocument` (outcome `renamed`, `updatedAt` restamped from 5 to
10). -/
theorem C6_trim_equal_rename_mutates :
    trimString " Foo " = c6doc.name ∧
    (renameDocument c6db 1 (some " Foo ") 10).2 = RenameOutcome.renamed ∧
    (storeGet (renameDocument c6db 1 (some " Foo ") 10).1.store 1).map
      Document.updatedAt = some 10 ∧
    (storeGet c6db.store 1).map Document.updatedAt = some 5 := by
  decide

/-- C6 (amended): a rename whose proposed name is **exactly** the document's
current name takes the NoOp branch: no rename write happens, and every
record's identity, name, content and creation stamp are unchanged.  (The
stored record is still not bit-for-bit unchanged: the `loadDocument` at the
head of `renameDocument` persists its recency touch, refreshing `lastOpened`
and `updatedAt`; and a proposal that merely trims to the current name is
renamed, not a NoOp — see the counterexample.) -/
theorem C6_rename_exact_name_noop (db : DB) (i now : Nat) (d : Document)
    (wf : storeWF db) (hd : storeGet db.store i = some d) :
    (renameDocument db i (some d.name) now).2 = RenameOutcome.noop ∧
    ∀ j, (storeGet (renameDocument db i (some d.name) now).1.store j).map
        persistentFields = (storeGet db.store j).map persistentFields := by
  have hcond : ¬ (d.name ≠ "" ∧ trimString d.name ≠ "" ∧
      d.name ≠ ({ d with lastOpened := some now } : Document).name) := by
    intro h
    exact h.2.2 rfl
  rw [renameDocument_some_eq db i d.name now hd, if_neg hcond]
  exact ⟨rfl, fun j => loadDocument_persistentFields i now j wf⟩

/-- Witness for C6 at a one-document store. -/
theorem C6_rename_exact_name_noop_witness :
    storeWF c6db ∧ storeGet c6db.store 1 = some c6doc ∧
    (renameDocument c6db 1 (some c6doc.name) 10).2 = RenameOutcome.noop ∧
    ∀ j, (storeGet (renameDocument c6db 1 (some c6doc.name) 10).1.store j).map
        persistentFields = (storeGet c6db.store j).map persistentFields := by
  have hwf : storeWF c6db := by decide
  have h := C6_rename_exact_name_noop c6db 1 10 c6doc hwf rfl
  exact ⟨hwf, rfl, h.1, h.2⟩

/-- C5, counterexample to the claim as stated: renaming document 1 to
document 2's exact name is rejected with Conflict, but document 1's stored
record *does* change — the `loadDocument` at the head of `renameDocument`
persists a recency touch, moving its `lastOpened` from 3 to 10 (and its
`updatedAt` from 5 to 10), so "neither record changes in any field" fails. -/
theorem C5_conflict_still_touches_record :
    (renameDocument c5db 1 (some "Beta") 10).2 = RenameOutcome.conflict ∧
    (storeGet c5db.store 1).map Document.lastOpened = some (some 3) ∧
    (storeGet (renameDocument c5db 1 (some "Beta") 10).1.store 1).map
      Document.lastOpened = some (some 10) ∧
    (storeGet (renameDocument c5db 1 (some "Beta") 10).1.store 1).map
      Document.updatedAt = some 10 := by
  decide

/-- C5 (amended): renaming document `i` to the exact current name of a
different document `j` (a trim-stable, non-empty name that differs from
`i`'s) is rejected with Conflict; no rename write happens: every record
keeps its identity, name, content and creation stamp, and every record other
than `i` is unchanged in all fields.  Record `i` itself is refreshed in
`lastOpened`/`updatedAt` by the initial load's recency touch. -/
theorem C5_rename_to_existing_name_conflict (db : DB) (i j now : Nat)
    (di dj : Document) (wf : storeWF db) (hij : i ≠ j)
    (hi : storeGet db.store i = some di) (hj : storeGet db.store j = some dj)
    (htrim : trimString dj.name = dj.name)
    (hne : dj.name ≠ di.name) (hnonempty : dj.name ≠ "") :
    (renameDocument db i (some dj.name) now).2 = RenameOutcome.conflict ∧
    (∀ k, (storeGet (renameDocument db i (some dj.name) now).1.store k).map
        persistentFields = (storeGet db.store k).map persistentFields) ∧
    (∀ k, k ≠ i →
      storeGet (renameDocument db i (some dj.name) now).1.store k =
        storeGet db.store k) := by
  have hj1 : storeGet (loadDocument db i now).1.store j = some dj := by
    rw [loadDocument_get_other i now j wf (Ne.symm hij)]
    exact hj
  have hjid : dj.id = some j := storeWF_get_id wf hj
  have hany : ((listDocuments (loadDocument db i now).1).any
      (fun e => e.name = trimString dj.name ∧ e.id ≠ some i)) = true := by
    rw [List.any_eq_true]
    refine ⟨dj, mem_listDocuments (storeGet_mem hj1), ?_⟩
    simp [htrim, hjid]
    exact Ne.symm hij
  have hcond : dj.name ≠ "" ∧ trimString dj.name ≠ "" ∧
      dj.name ≠ ({ di with lastOpened := some now } : Document).name := by
    refine ⟨hnonempty, ?_, hne⟩
    rw [htrim]
    exact hnonempty
  rw [renameDocument_some_eq db i dj.name now hi, if_pos hcond, if_pos hany]
  exact ⟨rfl, fun k => loadDocument_persistentFields i now k wf,
    fun k hk => loadDocument_get_other i now k wf hk⟩

/-- Witness for C5 at a two-document store. -/
theorem C5_rename_to_existing_name_conflict_witness :
    storeWF c5db ∧ (1 : Nat) ≠ 2 ∧
    storeGet c5db.store 1 = some c5docA ∧ storeGet c5db.store 2 = some c5docB ∧
    trimString c5docB.name = c5docB.name ∧ c5docB.name ≠ c5docA.name ∧
    c5docB.name ≠ "" ∧
    (renameDocument c5db 1 (some c5docB.name) 10).2 = RenameOutcome.conflict ∧
    (∀ k, k ≠ 1 →
      storeGet (renameDocument c5db 1 (some c5docB.name) 10).1.store k =
        storeGet c5db.store k) := by
  have hwf : storeWF c5db := by decide
  have h := C5_rename_to_existing_name_conflict c5db 1 2 10 c5docA c5docB hwf
    (by decide) rfl rfl (by decide) (by decide) (by decide)
  exact ⟨hwf, by decide, rfl, rfl, by decide, by decide, by decide, h.1, h.2.2⟩

theorem betterLastOpened_wf (acc : Option (Nat × Nat × Document))
    (e : Nat × Document)
    (hacc : ∀ t k d, acc = some (t, k, d) → d.lastOpened = some t) :
    ∀ t k d, betterLastOpened acc e = some (t, k, d) → d.lastOpened = some t := by
  intro t k d h
  cases he : e.2.lastOpened with
  | none =>
    simp only [betterLastOpened, he] at h
    exact hacc t k d h
  | some u =>
    cases hac : acc with
    | none =>
      subst hac
      simp only [betterLastOpened, he, Option.some_inj, Prod.mk.injEq] at h
      rw [← h.2.2, he, h.1]
    | some b =>
      obtain ⟨t', k', d'⟩ := b
      subst hac
      simp only [betterLastOpened, he] at h
      by_cases hcmp : t' < u ∨ (t' = u ∧ k' < e.1)
      · rw [if_pos hcmp] at h
        simp only [Option.some_inj, Prod.mk.injEq] at h
        rw [← h.2.2, he, h.1]
      · rw [if_neg hcmp] at h
        exact hacc t k d h

theorem betterLastOpened_origin (acc : Option (Nat × Nat × Document))
    (e : Nat × Document) (t k : Nat) (d : Document)
    (h : betterLastOpened acc e = some (t, k, d)) :
    acc = some (t, k, d) ∨ ((k, d) = e ∧ e.2.lastOpened = some t) := by
  cases he : e.2.lastOpened with
  | none =>
    simp only [betterLastOpened, he] at h
    exact Or.inl h
  | some u =>
    cases hac : acc with
    | none =>
      subst hac
      simp only [betterLastOpened, he, Option.some_inj, Prod.mk.injEq] at h
      right
      refine ⟨Prod.ext h.2.1.symm h.2.2.symm, ?_⟩
      rw [h.1]
    | some b =>
      obtain ⟨t', k', d'⟩ := b
      subst hac
      simp only [betterLastOpened, he] at h
      by_cases hcmp : t' < u ∨ (t' = u ∧ k' < e.1)
      · rw [if_pos hcmp] at h
        simp only [Option.some_inj, Prod.mk.injEq] at h
        right
        refine ⟨Prod.ext h.2.1.symm h.2.2.symm, ?_⟩
        rw [h.1]
      · rw [if_neg hcmp] at h
        exact Or.inl h

theorem betterLastOpened_acc_some (acc : Option (Nat × Nat × Document))
    (e : Nat × Document) (t0 k0 : Nat) (d0 : Document)
    (h0 : acc = some (t0, k0, d0)) :
    ∃ t1 k1 d1, betterLastOpened acc e = some (t1, k1, d1) ∧ t0 ≤ t1 := by
  subst h0
  cases he : e.2.lastOpened with
  | none =>
    simp only [betterLastOpened, he]
    exact ⟨t0, k0, d0, rfl, le_refl t0⟩
  | some u =>
    simp only [betterLastOpened, he]
    by_cases hcmp : t0 < u ∨ (t0 = u ∧ k0 < e.1)
    · rw [if_pos hcmp]
      exact ⟨u, e.1, e.2, rfl, by omega⟩
    · rw [if_neg hcmp]
      exact ⟨t0, k0, d0, rfl, le_refl t0⟩

theorem betterLastOpened_e_le (acc : Option (Nat × Nat × Document))
    (e : Nat × Document) (u : Nat) (he : e.2.lastOpened = some u) :
    ∃ t1 k1 d1, betterLastOpened acc e = some (t1, k1, d1) ∧ u ≤ t1 := by
  cases acc with
  | none =>
    simp only [betterLastOpened, he]
    exact ⟨u, e.1, e.2, rfl, le_refl u⟩
  | some b =>
    obtain ⟨t', k', d'⟩ := b
    simp only [betterLastOpened, he]
    by_cases hcmp : t' < u ∨ (t' = u ∧ k' < e.1)
    · rw [if_pos hcmp]
      exact ⟨u, e.1, e.2, rfl, le_refl u⟩
    · rw [if_neg hcmp]
      exact ⟨t', k', d', rfl, by omega⟩

theorem betterLastOpened_none_iff (acc : Option (Nat × Nat × Document))
    (e : Nat × Document) :
    betterLastOpened acc e = none ↔ acc = none ∧ e.2.lastOpened = none := by
  cases he : e.2.lastOpened with
  | none => simp [betterLastOpened, he]
  | some u =>
    cases acc with
    | none => simp [betterLastOpened, he]
    | some b =>
      obtain ⟨t', k', d'⟩ := b
      by_cases hcmp : t' < u ∨ (t' = u ∧ k' < e.1) <;>
        simp [betterLastOpened, he, hcmp]

theorem foldl_betterLastOpened_some (l : List (Nat × Document)) :
    ∀ acc, (∀ t k d, acc = some (t, k, d) → d.lastOpened = some t) →
    ∀ t k d, l.foldl betterLastOpened acc = some (t, k, d) →
      d.lastOpened = some t ∧
      ((k, d) ∈ l ∨ acc = some (t, k, d)) ∧
      (∀ e ∈ l, ∀ u, e.2.lastOpened = some u → u ≤ t) ∧
      (∀ t0 k0 d0, acc = some (t0, k0, d0) → t0 ≤ t) := by
  induction l with
  | nil =>
    intro acc hacc t k d h
    simp only [List.foldl_nil] at h
    refine ⟨hacc t k d h, Or.inr h, by simp, ?_⟩
    intro t0 k0 d0 h0
    rw [h0] at h
    simp only [Option.some_inj, Prod.mk.injEq] at h
    rw [h.1]
  | cons e l ih =>
    intro acc hacc t k d h
    rw [List.foldl_cons] at h
    have hacc1 := betterLastOpened_wf acc e hacc
    obtain ⟨h1, h2, h3, h4⟩ := ih (betterLastOpened acc e) hacc1 t k d h
    refine ⟨h1, ?_, ?_, ?_⟩
    · rcases h2 with hm | hae
      · exact Or.inl (List.mem_cons_of_mem _ hm)
      · rcases betterLastOpened_origin acc e _ _ _ hae with h5 | ⟨h5, _⟩
        · exact Or.inr h5
        · rw [h5]
          exact Or.inl (List.mem_cons_self e l)
    · intro f hf u hu
      rcases List.mem_cons.mp hf with rfl | hfl
      · obtain ⟨t1, k1, d1, hb, hle⟩ := betterLastOpened_e_le acc f u hu
        have := h4 t1 k1 d1 hb
        omega
      · exact h3 f hfl u hu
    · intro t0 k0 d0 h0
      obtain ⟨t1, k1, d1, hb, hle⟩ := betterLastOpened_acc_some acc e t0 k0 d0 h0
      have := h4 t1 k1 d1 hb
      omega

theorem foldl_betterLastOpened_none (l : List (Nat × Document)) :
    ∀ acc, (l.foldl betterLastOpened acc = none ↔
      acc = none ∧ ∀ e ∈ l, e.2.lastOpened = none) := by
  induction l with
  | nil => intro acc; simp
  | cons e l ih =>
    intro acc
    rw [List.foldl_cons, ih, betterLastOpened_none_iff]
    constructor
    · rintro ⟨⟨h1, h2⟩, h3⟩
      refine ⟨h1, fun f hf => ?_⟩
      rcases List.mem_cons.mp hf with rfl | hfl
      · exact h2
      · exact h3 f hfl
    · rintro ⟨h1, h2⟩
      exact ⟨⟨h1, h2 e (List.mem_cons_self e l)⟩,
        fun f hf => h2 f (List.mem_cons_of_mem _ hf)⟩

/-- C7, counterexample to the claim over the cited `src/ui.ts` variant of
`getLastOpenedDocument`: on a store where document 1 has the greatest
`lastOpened` (100) but document 2 has the greatest `updatedAt`, the ui
variant — `docs.find(doc => doc.lastOpened) || docs[0] || null` over the
`updatedAt`-descending listing — returns document 2 (whose `lastOpened` is
only 50), not the document with the greatest `lastOpened`.  The
`src/document.ts` variant returns document 1 as the claim demands. -/
theorem C7_ui_variant_not_max :
    getLastOpenedDocument_ui c7db = some c7docB ∧
    c7docB.lastOpened = some 50 ∧
    (1, c7docA) ∈ c7db.store ∧
    c7docA.lastOpened = some 100 ∧
    getLastOpenedDocument c7db = some c7docA := by
  decide

/-- C7 (amended, for the `src/document.ts` implementation used by
`src/main.ts`): `getLastOpenedDocument` returns `none` exactly when no stored
record carries a `lastOpened` value (in particular when the store is empty),
and otherwise returns a stored record whose `lastOpened` is greatest among
all records that carry one (the `src/ui.ts` near-duplicate does not satisfy
this — see the counterexample). -/
theorem C7_getLastOpenedDocument_max (db : DB) :
    (getLastOpenedDocument db = none ↔
      ∀ e ∈ db.store, e.2.lastOpened = none) ∧
    (∀ d, getLastOpenedDocument db = some d →
      (∃ k, (k, d) ∈ db.store) ∧
      ∃ t, d.lastOpened = some t ∧
        ∀ e ∈ db.store, ∀ u, e.2.lastOpened = some u → u ≤ t) := by
  constructor
  · unfold getLastOpenedDocument
    rw [Option.map_eq_none', foldl_betterLastOpened_none]
    simp
  · intro d h
    unfold getLastOpenedDocument at h
    rcases Option.map_eq_some'.mp h with ⟨⟨t, k, d2⟩, hfold, hd⟩
    have hd2 : d2 = d := hd
    obtain ⟨h1, h2, h3, _⟩ :=
      foldl_betterLastOpened_some db.store none (by simp) t k d2 hfold
    rw [← hd2]
    rcases h2 with hm | hc
    · exact ⟨⟨k, hm⟩, t, h1, h3⟩
    · exact absurd hc (by simp)

/-- Witness for C7 at the two-document store: the `document.ts`
implementation picks document 1, which is stored and has the maximal
`lastOpened`. -/
theorem C7_getLastOpenedDocument_max_witness :
    getLastOpenedDocument c7db = some c7docA ∧
    (∃ k, (k, c7docA) ∈ c7db.store) ∧
    ∃ t, c7docA.lastOpened = some t ∧
      ∀ e ∈ c7db.store, ∀ u, e.2.lastOpened = some u → u ≤ t :=
  ⟨by decide,
    (C7_getLastOpenedDocument_max c7db).2 c7docA (by decide)⟩

theorem charToDigit_digitChar : ∀ d : Nat, d < 10 →
    charToDigit (Nat.digitChar d) = d := by
  decide

theorem toDigitsCore_append (b : Nat) :
    ∀ (fuel n : Nat) (ds : List Char),
      Nat.toDigitsCore b fuel n ds = Nat.toDigitsCore b fuel n [] ++ ds := by
  intro fuel
  induction fuel with
  | zero => intro n ds; simp [Nat.toDigitsCore]
  | succ fuel ih =>
    intro n ds
    simp only [Nat.toDigitsCore]
    by_cases h : n / b = 0
    · simp [h]
    · simp only [h, if_false]
      rw [ih (n / b) (Nat.digitChar (n % b) :: ds), ih (n / b) [Nat.digitChar (n % b)]]
      simp

theorem digitsVal_append_singleton (xs : List Char) (c : Char) :
    digitsVal (xs ++ [c]) = 10 * digitsVal xs + charToDigit c := by
  induction xs with
  | nil => simp [digitsVal]
  | cons a xs ih =>
    simp only [List.cons_append, digitsVal, ih, List.append_eq,
      List.length_append, List.length_singleton, pow_succ]
    ring

theorem digitsVal_toDigitsCore :
    ∀ (fuel n : Nat), n < 10 ^ fuel →
      digitsVal (Nat.toDigitsCore 10 fuel n []) = n := by
  intro fuel
  induction fuel with
  | zero =>
    intro n h
    simp at h
    simp [h, Nat.toDigitsCore, digitsVal]
  | succ fuel ih =>
    intro n h
    simp only [Nat.toDigitsCore]
    by_cases h0 : n / 10 = 0
    · have hn : n < 10 := by omega
      have hmod : n % 10 = n := Nat.mod_eq_of_lt hn
      simp [h0, digitsVal, hmod, charToDigit_digitChar n hn]
    · simp only [h0, if_false]
      rw [toDigitsCore_append, digitsVal_append_singleton,
        ih (n / 10) (by
          rw [Nat.div_lt_iff_lt_mul (by norm_num : (0:Nat) < 10)]
          calc n < 10 ^ (fuel + 1) := h
            _ = 10 ^ fuel * 10 := by ring),
        charToDigit_digitChar (n % 10) (by omega)]
      omega

theorem Nat_repr_injective : ∀ m n : Nat, Nat.repr m = Nat.repr n → m = n := by
  intro m n h
  have hdata : (Nat.toDigits 10 m) = (Nat.toDigits 10 n) := by
    have hc := congrArg String.data h
    simpa [Nat.repr, List.asString] using hc
  have hm : digitsVal (Nat.toDigits 10 m) = m :=
    digitsVal_toDigitsCore (m + 1) m
      (lt_of_lt_of_le (Nat.lt_pow_self (by norm_num) m)
        (Nat.pow_le_pow_right (by norm_num) (Nat.le_succ m)))
  have hn : digitsVal (Nat.toDigits 10 n) = n :=
    digitsVal_toDigitsCore (n + 1) n
      (lt_of_lt_of_le (Nat.lt_pow_self (by norm_num) n)
        (Nat.pow_le_pow_right (by norm_num) (Nat.le_succ n)))
  rw [← hm, ← hn, hdata]

theorem candidateName_injective : ∀ m n : Nat,
    candidateName m = candidateName n → m = n := by
  intro m n h
  apply Nat_repr_injective
  have hdata := congrArg String.data h
  simp only [candidateName, String.data_append] at hdata
  have h2 := List.append_cancel_left hdata
  cases hm : Nat.repr m
  cases hn : Nat.repr n
  rw [hm, hn] at h2
  exact congrArg String.mk (by simpa using h2)

/-- Some candidate among `"Document 1"` … `"Document (length + 1)"` is not in
the listing: the `while` loop of `generateNextDocumentName` terminates within
`names.length + 1` probes. -/
theorem exists_free_candidate (names : List String) :
    ∃ n, 1 ≤ n ∧ n ≤ names.length + 1 ∧ candidateName n ∉ names := by
  by_contra hcon
  push_neg at hcon
  have hsub : ((List.range (names.length + 1)).map
      (fun k => candidateName (k + 1))) ⊆ names := by
    intro x hx
    rcases List.mem_map.mp hx with ⟨k, hk, rfl⟩
    have hk2 := List.mem_range.mp hk
    exact hcon (k + 1) (by omega) (by omega)
  have hinj : Function.Injective (fun k : Nat => candidateName (k + 1)) := by
    intro a b hab
    have := candidateName_injective (a + 1) (b + 1) hab
    omega
  have hnodup := (List.nodup_range (names.length + 1)).map hinj
  have hlen := (List.subperm_of_subset hnodup hsub).length_le
  simp at hlen

/-- Correctness of the probing loop: given enough fuel to reach a free
candidate, the result is at least the start counter, its candidate is free,
and every candidate strictly before it is taken. -/
theorem firstFreeCounter_spec (names : List String) :
    ∀ fuel counter,
      (∃ k, counter ≤ k ∧ k < counter + fuel ∧ candidateName k ∉ names) →
      counter ≤ firstFreeCounter names counter fuel ∧
      candidateName (firstFreeCounter names counter fuel) ∉ names ∧
      (∀ m, counter ≤ m → m < firstFreeCounter names counter fuel →
        candidateName m ∈ names) := by
  intro fuel
  induction fuel with
  | zero =>
    rintro counter ⟨k, hk1, hk2, _⟩
    omega
  | succ fuel ih =>
    rintro counter ⟨k, hk1, hk2, hk3⟩
    by_cases hmem : candidateName counter ∈ names
    · have hkc : counter ≠ k := fun hc => hk3 (hc ▸ hmem)
      have heq : firstFreeCounter names counter (fuel + 1) =
          firstFreeCounter names (counter + 1) fuel := by
        simp [firstFreeCounter, hmem]
      obtain ⟨h0, h1, h2⟩ := ih (counter + 1) ⟨k, by omega, by omega, hk3⟩
      rw [heq]
      refine ⟨by omega, h1, ?_⟩
      intro m hm1 hm2
      by_cases hmc : m = counter
      · rw [hmc]; exact hmem
      · exact h2 m (by omega) hm2
    · have heq : firstFreeCounter names counter (fuel + 1) = counter := by
        simp [firstFreeCounter, hmem]
      rw [heq]
      exact ⟨le_refl counter, hmem,
        fun m hm1 hm2 => absurd (lt_of_le_of_lt hm1 hm2) (lt_irrefl counter)⟩

/-- C8: `generateNextDocumentName` probes the candidate `"Document n"` for
the smallest `n ≥ 1` whose candidate is absent from the listing; when the
immediate re-check does not find that candidate taken it is returned as is;
when the re-check finds it taken and the caller supplies no usable
replacement (prompt cancelled, or blank after trimming), the result is
`"Document "` suffixed with the current timestamp. -/
theorem C8_generateNextDocumentName (names refreshedNames : List String)
    (promptResult : Option String) (nowTs : Nat) :
    1 ≤ firstFreeCounter names 1 (names.length + 1) ∧
    candidateName (firstFreeCounter names 1 (names.length + 1)) ∉ names ∧
    (∀ m, 1 ≤ m → m < firstFreeCounter names 1 (names.length + 1) →
      candidateName m ∈ names) ∧
    (candidateName (firstFreeCounter names 1 (names.length + 1)) ∉ refreshedNames →
      generateNextDocumentName names refreshedNames promptResult nowTs =
        candidateName (firstFreeCounter names 1 (names.length + 1))) ∧
    (candidateName (firstFreeCounter names 1 (names.length + 1)) ∈ refreshedNames →
      (∀ s, promptResult = some s → trimString s = "") →
      generateNextDocumentName names refreshedNames promptResult nowTs =
        "Document " ++ Nat.repr nowTs) := by
  obtain ⟨k, hk1, hk2, hk3⟩ := exists_free_candidate names
  obtain ⟨h0, h1, h2⟩ :=
    firstFreeCounter_spec names (names.length + 1) 1 ⟨k, hk1, by omega, hk3⟩
  refine ⟨h0, h1, h2, ?_, ?_⟩
  · intro hnin
    simp only [generateNextDocumentName]
    rw [if_neg hnin]
  · intro hin hprompt
    simp only [generateNextDocumentName]
    rw [if_pos hin]
    cases hp : promptResult with
    | none => rfl
    | some s =>
      have hs := hprompt s hp
      show (if s ≠ "" ∧ trimString s ≠ "" then trimString s
          else "Document " ++ Nat.repr nowTs) = "Document " ++ Nat.repr nowTs
      rw [if_neg (fun hc : s ≠ "" ∧ trimString s ≠ "" => hc.2 hs)]

/-- Witness for C8: with `"Document 1"` taken, the allocator yields
`"Document 2"`; when the re-check finds `"Document 2"` taken too and the
prompt is cancelled, it yields the timestamp name. -/
theorem C8_generateNextDocumentName_witness :
    generateNextDocumentName ["Document 1", "Blah"] ["Document 1", "Blah"]
      none 777 = "Document 2" ∧
    generateNextDocumentName ["Document 1", "Blah"]
      ["Document 1", "Blah", "Document 2"] none 777 = "Document 777" := by
  constructor
  · have h := (C8_generateNextDocumentName ["Document 1", "Blah"]
      ["Document 1", "Blah"] none 777).2.2.2.1 (by decide)
    rw [h]
    decide
  · have h := (C8_generateNextDocumentName ["Document 1", "Blah"]
      ["Document 1", "Blah", "Document 2"] none 777).2.2.2.2 (by decide)
      (fun s hs => nomatch hs)
    rw [h]
    decide

theorem dbFp_refl (db : DB) : dbFp db db :=
  ⟨fun j d d2 hj hj2 => by rw [hj] at hj2; exact (Option.some_inj.mp hj2).symm ▸ rfl,
    fun j d hj => ⟨d, hj⟩⟩

theorem dbFp_trans {a b c : DB} (h1 : dbFp a b) (h2 : dbFp b c) : dbFp a c := by
  refine ⟨?_, ?_⟩
  · intro j d d2 hj hj2
    obtain ⟨dm, hm⟩ := h1.2 j d hj
    rw [h2.1 j dm d2 hm hj2, h1.1 j d dm hj hm]
  · intro j d hj
    obtain ⟨dm, hm⟩ := h1.2 j d hj
    exact h2.2 j dm hm

theorem storeWF_get_nextId_none {db : DB} (wf : storeWF db) :
    storeGet db.store db.nextId = none := by
  cases h : storeGet db.store db.nextId with
  | none => rfl
  | some d =>
    have hmem := storeGet_mem h
    have := (wf _ hmem).2
    omega

theorem saveDocument_fp {db : DB} {doc : Document} {now : Nat}
    (hc : ∀ d0, storeGet db.store (saveKey db doc) = some d0 →
      doc.createdAt = d0.createdAt) :
    dbFp db (saveDocument db doc now).1 := by
  refine ⟨?_, ?_⟩
  · intro j d d2 hj hj2
    rcases saveDocument_get_cases db doc now hj2 with ⟨hk, hst⟩ | ⟨_, hsame⟩
    · subst hk
      rw [hst]
      simpa [stampRecord] using hc d hj
    · rw [hj] at hsame
      rw [Option.some_inj.mp hsame]
  · intro j d hj
    by_cases hk : j = saveKey db doc
    · subst hk
      exact ⟨_, saveDocument_get_self db doc now⟩
    · rw [saveDocument_get_ne db doc now j hk]
      exact ⟨d, hj⟩

theorem loadDocument_get_self {db : DB} (i now : Nat) (wf : storeWF db)
    {d : Document} (hd : storeGet db.store i = some d) :
    storeGet (loadDocument db i now).1.store i =
      some (stampRecord db { d with lastOpened := some now } now) := by
  have hkey := loadDocument_touch_key db i now wf hd
  rw [show (loadDocument db i now).1 =
      (saveDocument db { d with lastOpened := some now } now).1 from by
    rw [loadDocument_eq_some db i now hd]]
  rw [← hkey]
  exact saveDocument_get_self db _ now

theorem loadDocument_fp {db : DB} (i now : Nat) (wf : storeWF db) :
    dbFp db (loadDocument db i now).1 := by
  cases hget : storeGet db.store i with
  | none =>
    rw [show (loadDocument db i now).1 = db from by simp [loadDocument, hget]]
    exact dbFp_refl db
  | some d =>
    rw [show (loadDocument db i now).1 =
        (saveDocument db { d with lastOpened := some now } now).1 from by
      rw [loadDocument_eq_some db i now hget]]
    apply saveDocument_fp
    intro d0 hd0
    rw [loadDocument_touch_key db i now wf hget] at hd0
    rw [hget] at hd0
    rw [Option.some_inj.mp hd0]

theorem loadDocument_noNew {db : DB} (i now j : Nat) (wf : storeWF db)
    (hj : storeGet db.store j = none) :
    storeGet (loadDocument db i now).1.store j = none := by
  cases hget : storeGet db.store i with
  | none => rw [show (loadDocument db i now).1 = db from by simp [loadDocument, hget]]; exact hj
  | some d =>
    have hne : j ≠ i := fun hc => by rw [hc, hget] at hj; exact Option.noConfusion hj
    rw [loadDocument_get_other i now j wf hne]
    exact hj

theorem saveCurrentDocument_spec (s : State) (p : Option String) (now : Nat)
    (h : SessionInv s) :
    SessionInv (saveCurrentDocument s p now) ∧
    dbFp s.db (saveCurrentDocument s p now).db := by
  obtain ⟨hwf, hcc⟩ := h
  cases hcur : s.current with
  | none =>
    rw [show saveCurrentDocument s p now = s from by
      simp [saveCurrentDocument, hcur]]
    exact ⟨⟨hwf, hcc⟩, dbFp_refl _⟩
  | some c =>
    cases p with
    | none =>
      rw [show saveCurrentDocument s none now = s from by
        simp [saveCurrentDocument, hcur]]
      exact ⟨⟨hwf, hcc⟩, dbFp_refl _⟩
    | some name =>
      by_cases hname : name = ""
      · rw [show saveCurrentDocument s (some name) now = s from by
          simp [saveCurrentDocument, hcur, hname]]
        exact ⟨⟨hwf, hcc⟩, dbFp_refl _⟩
      · have heq : saveCurrentDocument s (some name) now =
            { s with
                db := (saveDocument s.db
                  { c with
                      name := name
                      updatedAt := now } now).1,
                current := some
                  { c with
                      name := name
                      updatedAt := now
                      id := some ((saveDocument s.db
                        { c with
                            name := name
                            updatedAt := now } now).2) },
                dirty := false } := by
          simp [saveCurrentDocument, hcur, hname]
        have hc : ∀ d0, storeGet s.db.store
            (saveKey s.db { c with name := name, updatedAt := now }) = some d0 →
            ({ c with name := name, updatedAt := now } : Document).createdAt =
              d0.createdAt := by
          intro d0 hd0
          cases hid : c.id with
          | some i0 =>
            rw [show saveKey s.db { c with name := name, updatedAt := now } = i0
              from by simp [saveKey, hid]] at hd0
            exact (hcc c i0 d0 hcur hid hd0).symm
          | none =>
            rw [show saveKey s.db { c with name := name, updatedAt := now } =
                s.db.nextId from by simp [saveKey, hid]] at hd0
            rw [storeWF_get_nextId_none hwf] at hd0
            exact Option.noConfusion hd0
        rw [heq]
        refine ⟨⟨storeWF_save _ _ hwf, ?_⟩, saveDocument_fp hc⟩
        intro c2 i2 d2 hc2 hi2 hd2
        have hcx : ({ c with
            name := name
            updatedAt := now
            id := some ((saveDocument s.db
              { c with name := name, updatedAt := now } now).2) } : Document) = c2 :=
          Option.some_inj.mp hc2
        subst hcx
        have hik : (saveDocument s.db
            { c with name := name, updatedAt := now } now).2 = i2 :=
          Option.some_inj.mp hi2
        rw [← hik, saveDocument_key] at hd2
        rw [saveDocument_get_self] at hd2
        obtain rfl := Option.some_inj.mp hd2
        simp [stampRecord]

theorem loadDocumentById_eq (s : State) (i : Nat) (mc : Option Bool)
    (sp : Option String) (now ns : Nat) :
    loadDocumentById s i mc sp now ns =
      if s.dirty then
        match mc with
        | none => s
        | some true => selectProceed i now (saveCurrentDocument s sp ns)
        | some false => selectProceed i now s
      else selectProceed i now s := rfl

theorem newDocClick_eq (s : State) (mc : Option Bool) (sp rp : Option String)
    (now : Nat) :
    newDocClick s mc sp rp now =
      if s.dirty then
        match mc with
        | none => s
        | some true => newDocProceed rp now (saveCurrentDocument s sp now)
        | some false => newDocProceed rp now s
      else newDocProceed rp now s := rfl

theorem selectProceed_spec (i now : Nat) (s1 : State) (h : SessionInv s1) :
    SessionInv (selectProceed i now s1) ∧ dbFp s1.db (selectProceed i now s1).db := by
  obtain ⟨hwf, hcc⟩ := h
  cases hget : storeGet s1.db.store i with
  | none =>
    have hload : loadDocument s1.db i now = (s1.db, none) := by
      simp [loadDocument, hget]
    have heq : selectProceed i now s1 = { s1 with db := s1.db } := by
      simp [selectProceed, hload]
    rw [heq]
    exact ⟨⟨hwf, hcc⟩, dbFp_refl _⟩
  | some d =>
    have heq : selectProceed i now s1 =
        { s1 with
            db := (loadDocument s1.db i now).1,
            current := some { d with lastOpened := some now },
            editorContent := ({ d with lastOpened := some now } : Document).content,
            dirty := false,
            saveStates := setSaveState s1.saveStates i SaveSt.idle } := by
      simp [selectProceed, loadDocument_eq_some s1.db i now hget]
    rw [heq]
    refine ⟨⟨storeWF_load i now hwf, ?_⟩, loadDocument_fp i now hwf⟩
    intro c2 i2 d2 hc2 hi2 hd2
    have hcx : ({ d with lastOpened := some now } : Document) = c2 :=
      Option.some_inj.mp hc2
    subst hcx
    have hid : d.id = some i := storeWF_get_id hwf hget
    have hi2x : i2 = i := by
      have hx : d.id = some i2 := hi2
      rw [hid] at hx
      exact (Option.some_inj.mp hx).symm
    rw [hi2x] at hd2
    rw [loadDocument_get_self i now hwf hget] at hd2
    obtain rfl := Option.some_inj.mp hd2
    simp [stampRecord]

theorem newDocProceed_spec (rp : Option String) (now : Nat) (s1 : State)
    (h : SessionInv s1) :
    SessionInv (newDocProceed rp now s1) ∧ dbFp s1.db (newDocProceed rp now s1).db := by
  obtain ⟨hwf, hcc⟩ := h
  have hc : ∀ (doc : Document), doc.id = none →
      ∀ d0, storeGet s1.db.store (saveKey s1.db doc) = some d0 →
        doc.createdAt = d0.createdAt := by
    intro doc hid d0 hd0
    rw [show saveKey s1.db doc = s1.db.nextId from by simp [saveKey, hid],
      storeWF_get_nextId_none hwf] at hd0
    exact Option.noConfusion hd0
  refine ⟨⟨?_, ?_⟩, ?_⟩
  · simp only [newDocProceed]
    exact storeWF_save _ _ hwf
  · intro c2 i2 d2 hc2 hi2 hd2
    simp only [newDocProceed] at hc2 hd2
    have hcx := Option.some_inj.mp hc2
    rw [← hcx] at hi2
    have hik := Option.some_inj.mp hi2
    rw [← hik] at hd2
    rw [saveDocument_key, saveDocument_get_self] at hd2
    obtain rfl := Option.some_inj.mp hd2
    rw [← hcx]
    simp [stampRecord]
  · simp only [newDocProceed]
    exact saveDocument_fp (hc _ rfl)

theorem autoSave_spec (s : State) (ok : Bool) (now now2 : Nat)
    (h : SessionInv s) :
    SessionInv (autoSave s ok now now2) ∧ dbFp s.db (autoSave s ok now now2).db := by
  obtain ⟨hwf, hcc⟩ := h
  cases hg : autoSaveGuard s with
  | none =>
    rw [show autoSave s ok now now2 = s from by simp [autoSave, hg]]
    exact ⟨⟨hwf, hcc⟩, dbFp_refl _⟩
  | some i =>
    obtain ⟨c, hcur, hid⟩ : ∃ c, s.current = some c ∧ c.id = some i := by
      cases hcs : s.current with
      | none => simp [autoSaveGuard, hcs] at hg
      | some c =>
        cases hids : c.id with
        | none => simp [autoSaveGuard, hcs, hids] at hg
        | some i0 =>
          simp only [autoSaveGuard, hcs, hids] at hg
          by_cases hcond : i0 ≠ 0 ∧ s.dirty = true
          · rw [if_pos hcond] at hg
            exact ⟨c, rfl, by rw [hids, Option.some_inj.mp hg]⟩
          · rw [if_neg hcond] at hg
            exact Option.noConfusion hg
    have hbegin : autoSaveBegin s now =
        { s with
            current := some
              { c with content := s.editorContent, updatedAt := now },
            saveStates := setSaveState s.saveStates i SaveSt.saving } := by
      simp [autoSaveBegin, hg, hcur]
    cases ok with
    | false =>
      have heq : autoSave s false now now2 =
          { s with
              current := some
                { c with content := s.editorContent, updatedAt := now },
              saveStates := setSaveState
                (setSaveState s.saveStates i SaveSt.saving) i SaveSt.idle } := by
        simp [autoSave, hg, hbegin, autoSaveCommit]
      rw [heq]
      refine ⟨⟨hwf, ?_⟩, dbFp_refl _⟩
      intro c2 i2 d2 hc2 hi2 hd2
      have hcx : ({ c with content := s.editorContent, updatedAt := now } :
          Document) = c2 := Option.some_inj.mp hc2
      subst hcx
      have hi2x : i2 = i := by
        have hx : c.id = some i2 := hi2
        rw [hid] at hx
        exact (Option.some_inj.mp hx).symm
      rw [hi2x] at hd2
      exact hcc c i d2 hcur hid hd2
    | true =>
      have heq : autoSave s true now now2 =
          { s with
              db := (saveDocument s.db
                { c with content := s.editorContent, updatedAt := now } now2).1,
              current := some
                { c with content := s.editorContent, updatedAt := now },
              dirty := false,
              saveStates := setSaveState
                (setSaveState s.saveStates i SaveSt.saving) i SaveSt.saved } := by
        simp [autoSave, hg, hbegin, autoSaveCommit]
      have hkey : saveKey s.db
          { c with content := s.editorContent, updatedAt := now } = i := by
        simp [saveKey, hid]
      have hc : ∀ d0, storeGet s.db.store (saveKey s.db
          { c with content := s.editorContent, updatedAt := now }) = some d0 →
          ({ c with content := s.editorContent, updatedAt := now } :
            Document).createdAt = d0.createdAt := by
        intro d0 hd0
        rw [hkey] at hd0
        exact (hcc c i d0 hcur hid hd0).symm
      rw [heq]
      refine ⟨⟨storeWF_save _ _ hwf, ?_⟩, saveDocument_fp hc⟩
      intro c2 i2 d2 hc2 hi2 hd2
      have hcx : ({ c with content := s.editorContent, updatedAt := now } :
          Document) = c2 := Option.some_inj.mp hc2
      subst hcx
      have hi2x : i2 = i := by
        have hx : c.id = some i2 := hi2
        rw [hid] at hx
        exact (Option.some_inj.mp hx).symm
      rw [hi2x] at hd2
      rw [← hkey, saveDocument_get_self] at hd2
      obtain rfl := Option.some_inj.mp hd2
      simp [stampRecord]

theorem renameDocument_db_spec (db : DB) (i : Nat) (p : Option String)
    (now : Nat) (wf : storeWF db) :
    storeWF (renameDocument db i p now).1 ∧
    dbFp db (renameDocument db i p now).1 ∧
    (∀ j, storeGet db.store j = none →
      storeGet (renameDocument db i p now).1.store j = none) := by
  have hload : storeWF (loadDocument db i now).1 ∧
      dbFp db (loadDocument db i now).1 ∧
      (∀ j, storeGet db.store j = none →
        storeGet (loadDocument db i now).1.store j = none) :=
    ⟨storeWF_load i now wf, loadDocument_fp i now wf,
      fun j hj => loadDocument_noNew i now j wf hj⟩
  cases hget : storeGet db.store i with
  | none =>
    have heq : renameDocument db i p now = (db, RenameOutcome.notFound) := by
      unfold renameDocument
      rw [show loadDocument db i now = (db, none) from by simp [loadDocument, hget]]
    rw [heq]
    exact ⟨wf, dbFp_refl db, fun j hj => hj⟩
  | some d =>
    cases p with
    | none =>
      have heq : renameDocument db i none now =
          ((loadDocument db i now).1, RenameOutcome.noop) := by
        unfold renameDocument
        rw [loadDocument_eq_some db i now hget]
      rw [heq]
      exact hload
    | some newName =>
      by_cases hcond : newName ≠ "" ∧ trimString newName ≠ "" ∧
          newName ≠ ({ d with lastOpened := some now } : Document).name
      · by_cases hany : ((listDocuments (loadDocument db i now).1).any
            (fun e => e.name = trimString newName ∧ e.id ≠ some i)) = true
        · have heq : renameDocument db i (some newName) now =
              ((loadDocument db i now).1, RenameOutcome.conflict) := by
            rw [renameDocument_some_eq db i newName now hget, if_pos hcond,
              if_pos hany]
          rw [heq]
          exact hload
        · have heq : renameDocument db i (some newName) now =
              ((saveDocument (loadDocument db i now).1
                { d with name := trimString newName, lastOpened := some now }
                now).1, RenameOutcome.renamed) := by
            rw [renameDocument_some_eq db i newName now hget, if_pos hcond,
              if_neg hany]
          have hid : d.id = some i := storeWF_get_id wf hget
          have hkey : saveKey (loadDocument db i now).1
              { d with name := trimString newName, lastOpened := some now } = i := by
            simp [saveKey, hid]
          have hc : ∀ d0, storeGet (loadDocument db i now).1.store
              (saveKey (loadDocument db i now).1
                { d with name := trimString newName, lastOpened := some now }) =
                some d0 →
              ({ d with name := trimString newName, lastOpened := some now } :
                Document).createdAt = d0.createdAt := by
            intro d0 hd0
            rw [hkey, loadDocument_get_self i now wf hget] at hd0
            obtain rfl := Option.some_inj.mp hd0
            simp [stampRecord]
          rw [heq]
          refine ⟨storeWF_save _ _ hload.1, dbFp_trans hload.2.1 (saveDocument_fp hc), ?_⟩
          intro j hj
          have hj1 := hload.2.2 j hj
          have hjk : j ≠ saveKey (loadDocument db i now).1
              { d with name := trimString newName, lastOpened := some now } := by
            rw [hkey]
            intro hc2
            rw [hc2, hget] at hj
            exact Option.noConfusion hj
          rw [saveDocument_get_ne _ _ _ _ hjk]
          exact hj1
      · have heq : renameDocument db i (some newName) now =
            ((loadDocument db i now).1, RenameOutcome.noop) := by
          rw [renameDocument_some_eq db i newName now hget, if_neg hcond]
        rw [heq]
        exact hload

/-- C9: across every session operation — put (manual save, autosave, new
document), get (select, copy, the load inside rename) and rename — a stored
record present before and after keeps its primary key as its `id` field and
its `createdAt` unchanged; and the session invariant is preserved, so this
holds along every reachable session history. -/
theorem C9_identity_stability (s : State) (ev : Ev) (h : SessionInv s) :
    SessionInv (step s ev) ∧
    ∀ i d d2, storeGet s.db.store i = some d →
      storeGet (step s ev).db.store i = some d2 →
      d2.id = some i ∧ d2.createdAt = d.createdAt := by
  have frameOf : ∀ {db2 : DB}, storeWF db2 →
      (∀ j e e2, storeGet s.db.store j = some e →
        storeGet db2.store j = some e2 → e2.createdAt = e.createdAt) →
      ∀ i d d2, storeGet s.db.store i = some d →
        storeGet db2.store i = some d2 →
        d2.id = some i ∧ d2.createdAt = d.createdAt :=
    fun hwf2 hfr i d d2 hd hd2 =>
      ⟨(hwf2 _ (storeGet_mem hd2)).1, hfr i d d2 hd hd2⟩
  obtain ⟨hwf, hcc⟩ := h
  cases ev with
  | edit content =>
    exact ⟨⟨hwf, hcc⟩, frameOf hwf (dbFp_refl s.db).1⟩
  | revert i =>
    exact ⟨⟨hwf, hcc⟩, frameOf hwf (dbFp_refl s.db).1⟩
  | autosave ok now now2 =>
    obtain ⟨hinv2, hfp⟩ := autoSave_spec s ok now now2 ⟨hwf, hcc⟩
    exact ⟨hinv2, frameOf hinv2.1 hfp.1⟩
  | manualSave p now =>
    obtain ⟨hinv2, hfp⟩ := saveCurrentDocument_spec s p now ⟨hwf, hcc⟩
    exact ⟨hinv2, frameOf hinv2.1 hfp.1⟩
  | select i mc sp now ns =>
    simp only [step]
    rw [loadDocumentById_eq s i mc sp now ns]
    by_cases hdirty : s.dirty = true
    · rw [if_pos hdirty]
      cases mc with
      | none => exact ⟨⟨hwf, hcc⟩, frameOf hwf (dbFp_refl s.db).1⟩
      | some b =>
        cases b with
        | true =>
          obtain ⟨hinv1, hfp1⟩ := saveCurrentDocument_spec s sp ns ⟨hwf, hcc⟩
          obtain ⟨hinv2, hfp2⟩ := selectProceed_spec i now _ hinv1
          exact ⟨hinv2, frameOf hinv2.1 (dbFp_trans hfp1 hfp2).1⟩
        | false =>
          obtain ⟨hinv2, hfp2⟩ := selectProceed_spec i now s ⟨hwf, hcc⟩
          exact ⟨hinv2, frameOf hinv2.1 hfp2.1⟩
    · rw [if_neg hdirty]
      obtain ⟨hinv2, hfp2⟩ := selectProceed_spec i now s ⟨hwf, hcc⟩
      exact ⟨hinv2, frameOf hinv2.1 hfp2.1⟩
  | newdoc mc sp rp now =>
    simp only [step]
    rw [newDocClick_eq s mc sp rp now]
    by_cases hdirty : s.dirty = true
    · rw [if_pos hdirty]
      cases mc with
      | none => exact ⟨⟨hwf, hcc⟩, frameOf hwf (dbFp_refl s.db).1⟩
      | some b =>
        cases b with
        | true =>
          obtain ⟨hinv1, hfp1⟩ := saveCurrentDocument_spec s sp now ⟨hwf, hcc⟩
          obtain ⟨hinv2, hfp2⟩ := newDocProceed_spec rp now _ hinv1
          exact ⟨hinv2, frameOf hinv2.1 (dbFp_trans hfp1 hfp2).1⟩
        | false =>
          obtain ⟨hinv2, hfp2⟩ := newDocProceed_spec rp now s ⟨hwf, hcc⟩
          exact ⟨hinv2, frameOf hinv2.1 hfp2.1⟩
    · rw [if_neg hdirty]
      obtain ⟨hinv2, hfp2⟩ := newDocProceed_spec rp now s ⟨hwf, hcc⟩
      exact ⟨hinv2, frameOf hinv2.1 hfp2.1⟩
  | rename i p now =>
    obtain ⟨hwf2, hfp, hnoNew⟩ := renameDocument_db_spec s.db i p now hwf
    refine ⟨⟨hwf2, ?_⟩, frameOf hwf2 hfp.1⟩
    intro c2 i2 d2 hc2 hi2 hd2
    have hc2x : s.current = some c2 := hc2
    have hd2x : storeGet (renameDocument s.db i p now).1.store i2 = some d2 := hd2
    cases hbefore : storeGet s.db.store i2 with
    | none =>
      rw [hnoNew i2 hbefore] at hd2x
      exact Option.noConfusion hd2x
    | some dmid =>
      have hmidc := hcc c2 i2 dmid hc2x hi2 hbefore
      rw [hfp.1 i2 dmid d2 hbefore hd2x, hmidc]
  | copy i now =>
    have hwf2 : storeWF (loadDocument s.db i now).1 := storeWF_load i now hwf
    have hfp := loadDocument_fp i now hwf
    refine ⟨⟨hwf2, ?_⟩, frameOf hwf2 hfp.1⟩
    intro c2 i2 d2 hc2 hi2 hd2
    have hc2x : s.current = some c2 := hc2
    have hd2x : storeGet (loadDocument s.db i now).1.store i2 = some d2 := hd2
    cases hbefore : storeGet s.db.store i2 with
    | none =>
      rw [loadDocument_noNew i now i2 hwf hbefore] at hd2x
      exact Option.noConfusion hd2x
    | some dmid =>
      have hmidc := hcc c2 i2 dmid hc2x hi2 hbefore
      rw [hfp.1 i2 dmid d2 hbefore hd2x, hmidc]
  | del i ok =>
    cases ok with
    | false =>
      exact ⟨⟨hwf, hcc⟩, frameOf hwf (dbFp_refl s.db).1⟩
    | true =>
      have hwf2 : storeWF (deleteDocument s.db i) := storeWF_delete i hwf
      have hframe : ∀ j e e2, storeGet s.db.store j = some e →
          storeGet (deleteDocument s.db i).store j = some e2 →
          e2.createdAt = e.createdAt := by
        intro j e e2 hj hj2
        have hj2x : storeGet (storeDelete s.db.store i) j = some e2 := hj2
        rw [storeGet_delete] at hj2x
        by_cases hji : j = i
        · rw [if_pos hji] at hj2x
          exact Option.noConfusion hj2x
        · rw [if_neg hji] at hj2x
          rw [hj] at hj2x
          rw [Option.some_inj.mp hj2x]
      simp only [step, deleteDocumentHandler, if_true]
      by_cases hcond : (({ s with db := deleteDocument s.db i } :
          State).current.bind fun c => c.id) = some i
      · rw [if_pos hcond]
        refine ⟨⟨hwf2, ?_⟩, frameOf hwf2 hframe⟩
        intro c2 i2 d2 hc2 _ _
        exact Option.noConfusion hc2
      · rw [if_neg hcond]
        refine ⟨⟨hwf2, ?_⟩, frameOf hwf2 hframe⟩
        intro c2 i2 d2 hc2 hi2 hd2
        have hc2x : s.current = some c2 := hc2
        have hd2x : storeGet (storeDelete s.db.store i) i2 = some d2 := hd2
        rw [storeGet_delete] at hd2x
        by_cases hji : i2 = i
        · rw [if_pos hji] at hd2x
          exact Option.noConfusion hd2x
        · rw [if_neg hji] at hd2x
          exact hcc c2 i2 d2 hc2x hi2 hd2x

/-- Witness for C9: the invariant holds at a concrete session and is carried
through a rename event, preserving the stored record's id and `createdAt`. -/
theorem C9_identity_stability_witness :
    SessionInv c9state ∧
    (SessionInv (step c9state (Ev.rename 1 (some "Renamed") 42)) ∧
      ∀ i d d2, storeGet c9state.db.store i = some d →
        storeGet (step c9state (Ev.rename 1 (some "Renamed") 42)).db.store i =
          some d2 →
        d2.id = some i ∧ d2.createdAt = d.createdAt) := by
  have hinv : SessionInv c9state := by
    refine ⟨by decide, ?_⟩
    intro c i d hc hi hd
    have hc2 : c9doc = c := Option.some_inj.mp hc
    subst hc2
    have hi2 : (1 : Nat) = i := Option.some_inj.mp hi
    subst hi2
    have hd2 : c9doc = d := Option.some_inj.mp hd
    rw [← hd2]
  exact ⟨hinv, C9_identity_stability c9state (Ev.rename 1 (some "Renamed") 42) hinv⟩
